import Mathlib

/-!
Verification of the diagnostics-export header (`diagnostics.h`) of a cppfront
fork: the scope-map stack algorithm (`make_scope_map`), symbol collection and
deduplication (`read_symbol`, `get_diagnostics`), error pass-through, the JSON
string escaping (`sanitize_for_json`), and the report serializer
(`print_diagnostics`).  Types consumed from `sema.h`/`common.h`/`parse.h`
(outside this header) are embedded at their interface: only the observers this
header actually reads are represented.
-/

set_option linter.unusedVariables false
set_option maxRecDepth 8192

/-- Position in the source.  Mirrors `cpp2::source_position` (declared in
common.h, outside this header): a (line, column) pair ordered lexicographically,
line first.  Modelled from the spec: positions are 1-based integers, so the
default-constructed position is (1, 1). -/
structure source_position where
  lineno : Nat
  colno : Nat
deriving DecidableEq, Repr

/-- Modelled from the spec: the value-initialized `cpp2::source_position`, the
start that `result[name].end = ...` default-inserts on a close with no prior
open for that name. -/
def default_source_position : source_position := { lineno := 1, colno := 1 }

/-- Boolean rendering of the lexicographic (line, then column) order on
positions. -/
def pos_le (a b : source_position) : Bool :=
  decide (a.lineno < b.lineno) ||
    (decide (a.lineno = b.lineno) && decide (a.colno ≤ b.colno))

instance : IsTrans source_position (fun a b => pos_le a b = true) where
  trans := by
    intro a b c hab hbc
    simp only [pos_le, Bool.or_eq_true, Bool.and_eq_true, decide_eq_true_eq] at hab hbc ⊢
    omega

/-- Declaration node as consumed by this header: the classification
predicates, the optional identifier, the source position, and the optional
parent declaration (`get_parent`).  The node type itself lives in parse.h,
outside this header; only these observers are used here. -/
inductive declaration_node where
  | mk (identifier : Option String) (is_function : Bool) (is_object : Bool)
      (is_type : Bool) (is_namespace : Bool) (position : source_position)
      (parent : Option declaration_node)

/-- Identifier of the declaration, null when anonymous. -/
def declaration_node.identifier : declaration_node → Option String
  | .mk i _ _ _ _ _ _ => i

/-- Classification predicate: the declaration declares a function. -/
def declaration_node.is_function : declaration_node → Bool
  | .mk _ f _ _ _ _ _ => f

/-- Classification predicate: the declaration declares an object. -/
def declaration_node.is_object : declaration_node → Bool
  | .mk _ _ o _ _ _ _ => o

/-- Classification predicate: the declaration declares a type. -/
def declaration_node.is_type : declaration_node → Bool
  | .mk _ _ _ t _ _ _ => t

/-- Classification predicate: the declaration declares a namespace. -/
def declaration_node.is_namespace : declaration_node → Bool
  | .mk _ _ _ _ n _ _ => n

/-- Source position of the declaration. -/
def declaration_node.position : declaration_node → source_position
  | .mk _ _ _ _ _ p _ => p

/-- Parent declaration (`get_parent`), null at top level. -/
def declaration_node.parent : declaration_node → Option declaration_node
  | .mk _ _ _ _ _ _ par => par

/-- Declaration symbol from `sema.h` as consumed here: the declaration node it
refers to and its optional identifier token (rendered as its string). -/
structure declaration_sym where
  declaration : declaration_node
  identifier : Option String

/-- Compound statement node as consumed here: the positions of its opening and
closing braces. -/
structure compound_statement_node where
  open_brace : source_position
  close_brace : source_position
deriving DecidableEq, Repr

/-- Modelled from the spec: a compound event is "tagged as a scope marker or
not" (the tag enum is declared in sema.h outside this header, with the scope
tag named `is_scope`). -/
inductive compound_kind where
  | is_scope
  | is_other
deriving DecidableEq, Repr

/-- Compound symbol from `sema.h` as consumed here: whether it marks the start
(opening brace) or the end (closing brace), the compound node with the brace
positions, and the tag tested against `is_scope`. -/
structure compound_sym where
  start : Bool
  compound : compound_statement_node
  kind_ : compound_kind

/-- Active alternatives of the symbol variant that this header inspects
(`symbol::active::declaration`, `symbol::active::compound`); every other
alternative falls into the default branch of the switch and is ignored,
represented by one catch-all constructor. -/
inductive symbol_active where
  | declaration (d : declaration_sym)
  | compound (c : compound_sym)
  | other_sym

/-- Entry of the sema symbol event stream: a variant value. -/
structure symbol where
  sym : symbol_active

/-- Info about a declaration/symbol in the source; its default three-way
comparison orders on the full (symbol, kind, scope, position) tuple in
declaration order. -/
structure diagnostic_symbol_t where
  symbol : String
  kind : String
  scope : String
  position : source_position
deriving DecidableEq, Repr

/-- Range of text in the source.  The second field is named `end` in the
source; `end` is reserved in Lean, so it is spelled `end_` here. -/
structure diagnostic_scope_range_t where
  start : source_position
  end_ : source_position
deriving DecidableEq, Repr

/-- Scope map, a `std::unordered_map` keyed by scope name in the source,
rendered as an association list with unique keys: updating an existing key
rewrites it in place, a fresh key is appended. -/
abbrev diagnostic_scope_map := List (String × diagnostic_scope_range_t)

/-- Modelled from the spec: `cpp2::error_entry` (sema.h, outside this header)
carries an associated symbol name (possibly empty), a message, and a position
(§3 DiagnosticError).  The position field is named `where` in the source,
spelled `where_` here because `where` is reserved in Lean. -/
structure error_entry where
  symbol : String
  msg : String
  where_ : source_position
deriving DecidableEq, Repr

/-- Main diagnostics type used to communicate compiler results to external
programs.  The `std::set` of symbols is rendered as its sorted iteration
sequence. -/
structure diagnostics_t where
  symbols : List diagnostic_symbol_t
  errors : List error_entry
  scope_map : diagnostic_scope_map
deriving DecidableEq, Repr

/-- Analyzer snapshot as consumed by this header: the declaration-table values
iterated by `get_diagnostics` (only the `d.second.sym` values matter here, in
iteration order), the ordered symbol event stream, and the recorded errors. -/
structure sema where
  declaration_of : List declaration_sym
  symbols : List symbol
  errors : List error_entry

/-- Determine the kind of declaration we have. -/
def get_declaration_kind (decl : declaration_node) : String :=
  if decl.is_function then "function"
  else if decl.is_object then "var"
  else if decl.is_type then "type"
  else if decl.is_namespace then "namespace"
  else "unknown"

/-- Get the identifier/name of the declaration: empty when the declaration is
null or has no identifier. -/
def get_decl_name : Option declaration_node → String
  | none => ""
  | some decl =>
    match decl.identifier with
    | none => ""
    | some id => id

/-- Read a declaration_sym into a diagnostic_symbol_t.  The source
dereferences `sym->identifier` unconditionally (non-null is a precondition);
a null identifier is rendered as the empty string here. -/
def read_symbol (sym : declaration_sym) : diagnostic_symbol_t :=
  { symbol := sym.identifier.getD ""
    kind := get_declaration_kind sym.declaration
    scope := get_decl_name sym.declaration.parent
    position := sym.declaration.position }

/-- Lookup in the scope map (`unordered_map::find`). -/
def map_find (m : diagnostic_scope_map) (k : String) : Option diagnostic_scope_range_t :=
  match m with
  | [] => none
  | (k2, v) :: rest => if k2 = k then some v else map_find rest k

/-- Write-through to the scope map (`unordered_map::operator[] = value`):
rewrite the key in place when present, append it when absent. -/
def map_set (m : diagnostic_scope_map) (k : String) (v : diagnostic_scope_range_t) :
    diagnostic_scope_map :=
  match m with
  | [] => [(k, v)]
  | (k2, v2) :: rest => if k2 = k then (k, v) :: rest else (k2, v2) :: map_set rest k v

/-- One iteration of the loop body of `make_scope_map`, over the state
(scope-name stack, scope map so far).  The stack top (`current.back()`) is the
list head.  The result is `none` exactly when the source would call
`current.back()` on an empty stack — undefined behavior in the source, which
exposes no failure result. -/
def scope_step (st : List String × diagnostic_scope_map) (s : symbol) :
    Option (List String × diagnostic_scope_map) :=
  match s.sym with
  | .declaration sym =>
    if sym.declaration.is_function || sym.declaration.is_namespace then
      match sym.identifier with
      | none => some st
      | some name => some (name :: st.1, st.2)
    else some st
  | .compound sym =>
    if sym.kind_ = .is_scope then
      match st.1 with
      | [] => none
      | name :: rest =>
        if sym.start then
          some (name :: rest,
            map_set st.2 name
              { start := sym.compound.open_brace, end_ := sym.compound.open_brace })
        else
          some (rest,
            map_set st.2 name
              { (map_find st.2 name).getD
                  { start := default_source_position, end_ := default_source_position }
                with end_ := sym.compound.close_brace })
    else some st
  | .other_sym => some st

/-- Loop of `make_scope_map` over the event stream, exposing the final
scope-name stack together with the scope map. -/
def make_scope_map_aux (symbols : List symbol) :
    Option (List String × diagnostic_scope_map) :=
  symbols.foldlM scope_step ([], [])

/-- Gather together the scope ranges for all of our scope-owning declarations. -/
def make_scope_map (sema : sema) : Option diagnostic_scope_map :=
  (make_scope_map_aux sema.symbols).map (fun st => st.2)

/-- Lexicographic comparison of character sequences, realizing
`std::string::operator<`. -/
def chars_lt : List Char → List Char → Bool
  | _, [] => false
  | [], _ :: _ => true
  | c :: cs, d :: ds => decide (c < d) || (decide (c = d) && chars_lt cs ds)

/-- Lexicographic comparison of strings. -/
def str_lt (a b : String) : Bool := chars_lt a.data b.data

/-- Strict order realizing `diagnostic_symbol_t::operator<=>` (defaulted):
lexicographic over the tuple (symbol, kind, scope, position) in declaration
order, position itself lexicographic (lineno, colno). -/
def sym_lt_b (a b : diagnostic_symbol_t) : Bool :=
  str_lt a.symbol b.symbol ||
    (decide (a.symbol = b.symbol) &&
      (str_lt a.kind b.kind ||
        (decide (a.kind = b.kind) &&
          (str_lt a.scope b.scope ||
            (decide (a.scope = b.scope) &&
              (decide (a.position.lineno < b.position.lineno) ||
                (decide (a.position.lineno = b.position.lineno) &&
                  decide (a.position.colno < b.position.colno))))))))

/-- Strict order in which the `std::set` of symbols is kept. -/
def sym_lt (a b : diagnostic_symbol_t) : Prop := sym_lt_b a b = true

instance : DecidableRel sym_lt :=
  fun a b => inferInstanceAs (Decidable (sym_lt_b a b = true))

/-- Order-theoretic reading of the set's sort key: the lexicographic product
of the four tuple components. -/
def sym_key (d : diagnostic_symbol_t) : String ×ₗ (String ×ₗ (String ×ₗ (Nat ×ₗ Nat))) :=
  toLex (d.symbol, toLex (d.kind, toLex (d.scope, toLex (d.position.lineno, d.position.colno))))

/-- Insertion into the ordered symbol set (`std::set::emplace`): keeps the
iteration sequence strictly sorted by `sym_lt` and inserts nothing when an
equivalent element is already present. -/
def set_insert (l : List diagnostic_symbol_t) (x : diagnostic_symbol_t) :
    List diagnostic_symbol_t :=
  match l with
  | [] => [x]
  | y :: ys =>
    if sym_lt x y then x :: y :: ys
    else if sym_lt y x then y :: set_insert ys x
    else y :: ys

/-- Takes a `sema` and aggregates all the diagnostics info.  The result is
`none` exactly when `make_scope_map` reaches its undefined-behavior branch. -/
def get_diagnostics (sema : sema) : Option diagnostics_t :=
  (make_scope_map sema).map (fun scope_map =>
    { symbols := sema.declaration_of.foldl (fun s d => set_insert s (read_symbol d)) []
      errors := sema.errors
      scope_map := scope_map })

/-- Modelled from the spec: `cpp2::replace_all` (common.h, outside this
header) replaces every occurrence of `what` in `s` by `with_`, scanning left
to right and continuing after the inserted replacement (the replacement text
is not rescanned). -/
def replace_all_chars (s what with_ : List Char) : List Char :=
  match s with
  | [] => []
  | c :: rest =>
    if h : what ≠ [] ∧ what.isPrefixOf (c :: rest) then
      with_ ++ replace_all_chars ((c :: rest).drop what.length) what with_
    else
      c :: replace_all_chars rest what with_
termination_by s.length
decreasing_by
  · simp only [List.length_drop, List.length_cons]
    have hw : 0 < what.length := List.length_pos.mpr h.1
    omega
  · simp only [List.length_cons]
    omega

/-- String wrapper of `replace_all_chars`, matching the call shape of
`cpp2::replace_all(result, what, with)`. -/
def replace_all (s what with_ : String) : String :=
  { data := replace_all_chars s.data what.data with_.data }

/-- Sanitize a string to make sure its json parsable. -/
def sanitize_for_json (s : String) : String :=
  let result := replace_all s "\\" "\\\\"
  let result := replace_all result "\"" "\\\""
  let result := replace_all result "\x08" "\\b"
  let result := replace_all result "\x0c" "\\f"
  let result := replace_all result "\n" "\\n"
  let result := replace_all result "\x0d" "\\r"
  let result := replace_all result "\t" "\\t"
  result

/-- Prints the compiler diagnostics to an ostream.  The ostream is rendered as
a string accumulator threaded through every `<<` write in source order. -/
def print_diagnostics (o : String) (diagnostics : diagnostics_t) : String :=
  let o := o ++ "\x7b\"symbols\": ["
  let o := diagnostics.symbols.foldl (fun o d =>
    o ++ "\x7b \"symbol\": \"" ++ d.symbol ++ "\", "
      ++ "\"scope\": \"" ++ d.scope ++ "\", "
      ++ "\"kind\": \"" ++ d.kind ++ "\", "
      ++ "\"lineno\": " ++ toString d.position.lineno ++ ", "
      ++ "\"colno\": " ++ toString d.position.colno ++ "\x7d,") o
  let o := o ++ "], \"errors\": ["
  let o := diagnostics.errors.foldl (fun o e =>
    o ++ "\x7b\"symbol\": \"" ++ e.symbol ++ "\", "
      ++ "\"lineno\": " ++ toString e.where_.lineno ++ ", "
      ++ "\"colno\": " ++ toString e.where_.colno ++ ", "
      ++ "\"msg\": \"" ++ sanitize_for_json e.msg ++ "\"\x7d,") o
  let o := o ++ "], \"scopes\": \x7b"
  let o := diagnostics.scope_map.foldl (fun o s =>
    o ++ "\"" ++ s.1 ++ "\":"
      ++ "\x7b\"start\": \x7b \"lineno\": " ++ toString s.2.start.lineno ++ ", "
      ++ "\"colno\": " ++ toString s.2.start.colno ++ "\x7d,"
      ++ "\"end\": \x7b \"lineno\": " ++ toString s.2.end_.lineno ++ ", "
      ++ "\"colno\": " ++ toString s.2.end_.colno ++ "\x7d\x7d,") o
  o ++ "\x7d\x7d"

/-- Keys of the scope map, in iteration order. -/
def map_keys (m : diagnostic_scope_map) : List String := m.map Prod.fst

/-- Names pushed on the scope-name stack by an event stream: identifiers of
function/namespace declaration events carrying an identifier, in stream
order. -/
def pushed_names : List symbol → List String
  | [] => []
  | s :: rest =>
    match s.sym with
    | .declaration d =>
      if d.declaration.is_function || d.declaration.is_namespace then
        match d.identifier with
        | none => pushed_names rest
        | some name => name :: pushed_names rest
      else pushed_names rest
    | _ => pushed_names rest

/-- Positions consumed by the scope markers of an event stream, in stream
order: the open-brace position for an opening marker, the close-brace position
for a closing one. -/
def marker_positions : List symbol → List source_position
  | [] => []
  | s :: rest =>
    match s.sym with
    | .compound c =>
      if c.kind_ = .is_scope then
        (if c.start then c.compound.open_brace else c.compound.close_brace)
          :: marker_positions rest
      else marker_positions rest
    | _ => marker_positions rest

/-- Pure stack evolution of the scope-map loop, with the underflowing pop on
an empty stack rendered as the identity (the branch the precondition makes
unreachable). -/
def stack_step (stack : List String) (s : symbol) : List String :=
  match s.sym with
  | .declaration d =>
    if d.declaration.is_function || d.declaration.is_namespace then
      match d.identifier with
      | none => stack
      | some name => name :: stack
    else stack
  | .compound c =>
    if c.kind_ = .is_scope then
      if c.start then stack else stack.tail
    else stack
  | .other_sym => stack

/-- Precondition of the scope-map builder: the scope-name stack is non-empty
at every scope marker of the stream, starting from the given stack. -/
def no_underflow (stack : List String) : List symbol → Bool
  | [] => true
  | s :: rest =>
    (match s.sym with
     | .compound c => if c.kind_ = .is_scope then !stack.isEmpty else true
     | _ => true) && no_underflow (stack_step stack s) rest

/-- Substring test over character lists, used to inspect serialized output. -/
def contains_sub (s pat : List Char) : Bool :=
  match s with
  | [] => pat.isEmpty
  | c :: rest => pat.isPrefixOf (c :: rest) || contains_sub rest pat

/-- Character-wise reading of the escaping the spec prescribes: exactly
backslash, double-quote, backspace, form-feed, newline, carriage-return and
tab are rewritten, every other character is kept. -/
def json_escape_char (c : Char) : List Char :=
  if c = '\\' then ['\\', '\\']
  else if c = '"' then ['\\', '"']
  else if c = '\x08' then ['\\', 'b']
  else if c = '\x0c' then ['\\', 'f']
  else if c = '\n' then ['\\', 'n']
  else if c = '\x0d' then ['\\', 'r']
  else if c = '\t' then ['\\', 't']
  else [c]

/-- Concatenation of serialized entries, in order. -/
def concat_entries : List String → String
  | [] => ""
  | s :: rest => s ++ concat_entries rest

/-- Serialized form of one symbols-section entry, as the symbol loop of
`print_diagnostics` writes it. -/
def print_symbol_entry (d : diagnostic_symbol_t) : String :=
  "\x7b \"symbol\": \"" ++ d.symbol ++ "\", "
    ++ "\"scope\": \"" ++ d.scope ++ "\", "
    ++ "\"kind\": \"" ++ d.kind ++ "\", "
    ++ "\"lineno\": " ++ toString d.position.lineno ++ ", "
    ++ "\"colno\": " ++ toString d.position.colno ++ "\x7d,"

/-- Serialized form of one errors-section entry, as the error loop of
`print_diagnostics` writes it: the message, and only the message, passes
through `sanitize_for_json`. -/
def print_error_entry (e : error_entry) : String :=
  "\x7b\"symbol\": \"" ++ e.symbol ++ "\", "
    ++ "\"lineno\": " ++ toString e.where_.lineno ++ ", "
    ++ "\"colno\": " ++ toString e.where_.colno ++ ", "
    ++ "\"msg\": \"" ++ sanitize_for_json e.msg ++ "\"\x7d,"

/-- Serialized form of one scopes-section entry, as the scope loop of
`print_diagnostics` writes it. -/
def print_scope_entry (s : String × diagnostic_scope_range_t) : String :=
  "\"" ++ s.1 ++ "\":"
    ++ "\x7b\"start\": \x7b \"lineno\": " ++ toString s.2.start.lineno ++ ", "
    ++ "\"colno\": " ++ toString s.2.start.colno ++ "\x7d,"
    ++ "\"end\": \x7b \"lineno\": " ++ toString s.2.end_.lineno ++ ", "
    ++ "\"colno\": " ++ toString s.2.end_.colno ++ "\x7d\x7d,"

/-- Function declaration carrying an identifier, as pushed by the scope-map
builder. -/
def fn_decl (x : String) : declaration_node :=
  .mk (some x) true false false false { lineno := 1, colno := 1 } none

/-- Namespace declaration carrying an identifier. -/
def ns_decl (x : String) : declaration_node :=
  .mk (some x) false false false true { lineno := 1, colno := 1 } none

/-- Declaration event pushing the name of a function. -/
def push_fn (x : String) : symbol :=
  { sym := .declaration { declaration := fn_decl x, identifier := some x } }

/-- Declaration event pushing the name of a namespace. -/
def push_ns (x : String) : symbol :=
  { sym := .declaration { declaration := ns_decl x, identifier := some x } }

/-- Opening scope marker of the given compound. -/
def open_event (n : compound_statement_node) : symbol :=
  { sym := .compound { start := true, compound := n, kind_ := .is_scope } }

/-- Closing scope marker of the given compound. -/
def close_event (n : compound_statement_node) : symbol :=
  { sym := .compound { start := false, compound := n, kind_ := .is_scope } }

/-- Body of namespace N: braces at (1,10) and (4,1). -/
def c1_node_N : compound_statement_node :=
  { open_brace := { lineno := 1, colno := 10 }, close_brace := { lineno := 4, colno := 1 } }

/-- Body of function f: braces at (2,5) and (3,1). -/
def c1_node_f : compound_statement_node :=
  { open_brace := { lineno := 2, colno := 5 }, close_brace := { lineno := 3, colno := 1 } }

/-- Event stream of the nested-scope example: push N, open (1,10), push f,
open (2,5), close (3,1), close (4,1). -/
def c1_events : List symbol :=
  [push_ns "N", open_event c1_node_N, push_fn "f",
   open_event c1_node_f, close_event c1_node_f, close_event c1_node_N]

/-- Snapshot holding only the nested-scope event stream. -/
def c1_sema : sema := { declaration_of := [], symbols := c1_events, errors := [] }

/-- Compound whose close brace precedes its open brace in the lexicographic
position order. -/
def c2_node : compound_statement_node :=
  { open_brace := { lineno := 5, colno := 5 }, close_brace := { lineno := 1, colno := 1 } }

/-- Balanced event stream whose single scope records end < start. -/
def c2_events : List symbol := [push_fn "a", open_event c2_node, close_event c2_node]

/-- Body of b in the double-push stream: braces at (2,1) and (3,1). -/
def c10_node_b : compound_statement_node :=
  { open_brace := { lineno := 2, colno := 1 }, close_brace := { lineno := 3, colno := 1 } }

/-- Compound whose closing marker pops a, closing at (4,1). -/
def c10_node_a : compound_statement_node :=
  { open_brace := { lineno := 2, colno := 1 }, close_brace := { lineno := 4, colno := 1 } }

/-- Event stream with two consecutive pushes and a single open/close pair
before the final close: the close popping a finds no entry for a. -/
def c10_events : List symbol :=
  [push_fn "a", push_fn "b", open_event c10_node_b,
   close_event c10_node_b, close_event c10_node_a]

/-- Namespace declaration zz at (1,1), no parent. -/
def c6_decl_zz : declaration_sym :=
  { declaration := .mk (some "zz") false false false true { lineno := 1, colno := 1 } none,
    identifier := some "zz" }

/-- Object declaration aa at (2,3) whose parent is the namespace zz. -/
def c6_decl_aa : declaration_sym :=
  { declaration := .mk (some "aa") false true false false { lineno := 2, colno := 3 }
      (some (.mk (some "zz") false false false true { lineno := 1, colno := 1 } none)),
    identifier := some "aa" }

/-- Snapshot whose declaration table holds the zz entry twice and the aa entry
once. -/
def c6_sema : sema :=
  { declaration_of := [c6_decl_zz, c6_decl_zz, c6_decl_aa], symbols := [], errors := [] }

/-- Report aggregated from `c6_sema`: the duplicate zz entries collapse and
the set iterates in tuple order. -/
def c6_report : diagnostics_t :=
  { symbols :=
      [{ symbol := "aa", kind := "var", scope := "zz", position := { lineno := 2, colno := 3 } },
       { symbol := "zz", kind := "namespace", scope := "", position := { lineno := 1, colno := 1 } }],
    errors := [], scope_map := [] }

/-- Snapshot holding two errors and nothing else. -/
def c8_sema : sema :=
  { declaration_of := [], symbols := [],
    errors :=
      [{ symbol := "s1", msg := "msg one", where_ := { lineno := 1, colno := 2 } },
       { symbol := "", msg := "msg two", where_ := { lineno := 3, colno := 4 } }] }

/-- Report aggregated from `c8_sema`. -/
def c8_report : diagnostics_t :=
  { symbols := [],
    errors :=
      [{ symbol := "s1", msg := "msg one", where_ := { lineno := 1, colno := 2 } },
       { symbol := "", msg := "msg two", where_ := { lineno := 3, colno := 4 } }],
    scope_map := [] }

/-- Report with one symbol and one scope, used to inspect the serialized
field names. -/
def c9_report : diagnostics_t :=
  { symbols := [{ symbol := "f", kind := "function", scope := "", position := { lineno := 1, colno := 2 } }],
    errors := [],
    scope_map := [("f", { start := { lineno := 1, colno := 1 }, end_ := { lineno := 2, colno := 2 } })] }

/-- Scope map computed from the nested-scope example stream. -/
def c1_scope_result : diagnostic_scope_map :=
  [("N", { start := { lineno := 1, colno := 10 }, end_ := { lineno := 4, colno := 1 } }),
   ("f", { start := { lineno := 2, colno := 5 }, end_ := { lineno := 3, colno := 1 } })]

/-- Report whose symbol name and error message both contain a double quote. -/
def c7_report : diagnostics_t :=
  { symbols := [{ symbol := "a\"b", kind := "function", scope := "", position := { lineno := 1, colno := 1 } }],
    errors := [{ symbol := "", msg := "a\"b", where_ := { lineno := 1, colno := 1 } }],
    scope_map := [] }

/-- C1: for the event stream pushing namespace N, opening at (1,10), pushing
function f, opening at (2,5), closing at (3,1) (popping f) and closing at
(4,1) (popping N), make_scope_map produces exactly the map sending N to
start (1,10), end (4,1) and f to start (2,5), end (3,1): each opening marker
records start = end = its position for the stack top, each closing marker sets
the top's end to its position and pops the stack. -/
theorem c1_nested_scope_map_example :
    make_scope_map c1_sema =
      some [("N", { start := { lineno := 1, colno := 10 }, end_ := { lineno := 4, colno := 1 } }),
            ("f", { start := { lineno := 2, colno := 5 }, end_ := { lineno := 3, colno := 1 } })] :=
  rfl

/-- C4: for every pair of sibling (non-nested, non-overlapping) scopes pushed
under the same name x, over arbitrary brace positions, the final scope map has
exactly one entry for x, equal to the second occurrence's range; the builder
does not fail on this input. -/
theorem c4_sibling_same_name_overwrite (x : String) (n1 n2 : compound_statement_node) :
    make_scope_map
      { declaration_of := [],
        symbols := [push_fn x, open_event n1, close_event n1,
                    push_fn x, open_event n2, close_event n2],
        errors := [] } =
      some [(x, { start := n2.open_brace, end_ := n2.close_brace })] := by
  simp [make_scope_map, make_scope_map_aux, scope_step, map_set, map_find, push_fn,
    open_event, close_event, fn_decl, declaration_node.is_function,
    declaration_node.is_namespace, List.foldlM]

/-- C10: a closing scope marker whose stack-top name has no entry in the scope
map does not fail: the indexing default-inserts an entry whose start is the
default-constructed position, then sets only its end, so the final map holds a
start that never came from any event of the stream. -/
theorem c10_close_default_insert :
    make_scope_map { declaration_of := [], symbols := c10_events, errors := [] } =
      some [("b", { start := { lineno := 2, colno := 1 }, end_ := { lineno := 3, colno := 1 } }),
            ("a", { start := default_source_position, end_ := { lineno := 4, colno := 1 } })]
    ∧ default_source_position ∉ marker_positions c10_events := by
  exact ⟨rfl, by decide⟩

/-- C5: the symbol collector classifies kind by testing is-function first,
then is-object (yielding "var"), then is-type, then is-namespace, defaulting
to "unknown"; and the enclosing scope is the parent's identifier text, or
empty when there is no parent or the parent has no identifier. -/
theorem c5_kind_classification_and_scope (d : declaration_sym) :
    ((read_symbol d).kind = "function" ↔ d.declaration.is_function = true)
    ∧ ((read_symbol d).kind = "var" ↔
        (d.declaration.is_function = false ∧ d.declaration.is_object = true))
    ∧ ((read_symbol d).kind = "type" ↔
        (d.declaration.is_function = false ∧ d.declaration.is_object = false ∧
         d.declaration.is_type = true))
    ∧ ((read_symbol d).kind = "namespace" ↔
        (d.declaration.is_function = false ∧ d.declaration.is_object = false ∧
         d.declaration.is_type = false ∧ d.declaration.is_namespace = true))
    ∧ ((read_symbol d).kind = "unknown" ↔
        (d.declaration.is_function = false ∧ d.declaration.is_object = false ∧
         d.declaration.is_type = false ∧ d.declaration.is_namespace = false))
    ∧ ((read_symbol d).scope =
        match d.declaration.parent with
        | none => ""
        | some p =>
          match p.identifier with
          | none => ""
          | some id => id) := by
  obtain ⟨⟨id, f, o, t, n, pos, par⟩, did⟩ := d
  cases f <;> cases o <;> cases t <;> cases n <;> cases par <;>
    simp [read_symbol, get_declaration_kind, get_decl_name, declaration_node.is_function,
      declaration_node.is_object, declaration_node.is_type, declaration_node.is_namespace,
      declaration_node.parent, declaration_node.identifier]

/-- C8: the errors of the report equal the analyzer's error list one-to-one in
the exact order received, with no filtering, deduplication or reordering, each
entry carried through unchanged. -/
theorem c8_errors_verbatim (s : sema) (r : diagnostics_t)
    (h : get_diagnostics s = some r) : r.errors = s.errors := by
  unfold get_diagnostics at h
  obtain ⟨m, hm, rfl⟩ := Option.map_eq_some'.mp h
  rfl

/-- Witness for C8 at a concrete snapshot holding two errors. -/
theorem c8_errors_verbatim_witness : c8_report.errors = c8_sema.errors :=
  c8_errors_verbatim c8_sema c8_report rfl

/-- C2 (counterexample): a balanced event stream — one push, one opening
marker, one closing marker, empty final stack — whose recorded entry has
end < start in the lexicographic position order, refuting the unconditional
end ≥ start part of the claim. -/
theorem c2_end_ge_start_counterexample :
    make_scope_map_aux c2_events =
      some ([], [("a", { start := { lineno := 5, colno := 5 },
                         end_ := { lineno := 1, colno := 1 } })])
    ∧ pos_le { lineno := 5, colno := 5 } { lineno := 1, colno := 1 } = false :=
  ⟨rfl, rfl⟩

/-- C9 (counterexample): the serialized document spells the position fields
"lineno" and "colno", and no field is named "line" or "col" as the claim
states. -/
theorem c9_field_names_counterexample :
    contains_sub (print_diagnostics "" c9_report).data "\"lineno\": ".data = true
    ∧ contains_sub (print_diagnostics "" c9_report).data "\"line\":".data = false
    ∧ contains_sub (print_diagnostics "" c9_report).data "\"col\":".data = false :=
  ⟨rfl, rfl, rfl⟩

/-- Running the loop body from any state succeeds exactly when the stack is
non-empty at every scope marker; the stack evolution on the success path is
`stack_step`. -/
theorem no_underflow_iff_isSome (evts : List symbol) :
    ∀ (stack : List String) (m : diagnostic_scope_map),
      no_underflow stack evts = (evts.foldlM scope_step (stack, m)).isSome := by
  induction evts with
  | nil => intro stack m; simp [no_underflow, List.foldlM]
  | cons e rest ih =>
    intro stack m
    obtain ⟨sa⟩ := e
    cases sa with
    | declaration d =>
      by_cases hd : (d.declaration.is_function || d.declaration.is_namespace) = true
      · cases hid : d.identifier with
        | none =>
          simp only [no_underflow, stack_step, scope_step, hd, hid, List.foldlM,
            if_true, Option.some_bind, Bool.true_and]
          exact ih _ _
        | some name =>
          simp only [no_underflow, stack_step, scope_step, hd, hid, List.foldlM,
            if_true, Option.some_bind, Bool.true_and]
          exact ih _ _
      · simp only [no_underflow, stack_step, scope_step, hd, List.foldlM,
          if_false, Option.some_bind, Bool.true_and, Bool.false_or, ite_false]
        exact ih _ _
    | compound c =>
      by_cases hk : c.kind_ = .is_scope
      · cases stack with
        | nil => simp [no_underflow, scope_step, hk, List.foldlM]
        | cons name rest2 =>
          cases hs : c.start
          · simp only [no_underflow, stack_step, scope_step, hk, hs, List.foldlM,
              if_true, if_false, Option.some_bind, List.isEmpty_cons, Bool.not_false,
              Bool.true_and, List.tail_cons, ite_true, ite_false]
            exact ih _ _
          · simp only [no_underflow, stack_step, scope_step, hk, hs, List.foldlM,
              if_true, Option.some_bind, List.isEmpty_cons, Bool.not_false,
              Bool.true_and, ite_true]
            exact ih _ _
      · simp only [no_underflow, stack_step, scope_step, hk, List.foldlM,
          Option.some_bind, Bool.true_and, ite_false, if_false]
        exact ih _ _
    | other_sym =>
      simp only [no_underflow, stack_step, scope_step, List.foldlM, Option.some_bind,
        Bool.true_and]
      exact ih _ _

/-- C3: a scope marker arriving with an empty scope-name stack is a
precondition violation, not a reportable error: under the precondition that
the stack is non-empty at every scope marker, the stack-top access and pop
never execute on an empty stack — the underflow branch is unreachable and the
builder produces a map — and conversely every run that avoids the underflow
branch satisfies the precondition; the builder exposes no failure result for
such input (its result type carries no error alternative). -/
theorem c3_underflow_unreachable (s : sema) :
    no_underflow [] s.symbols = true ↔ (make_scope_map s).isSome = true := by
  simp only [make_scope_map, make_scope_map_aux, no_underflow_iff_isSome s.symbols [] []]
  cases List.foldlM scope_step ([], []) s.symbols <;> simp

/-- Boolean lexicographic comparison of character lists agrees with the
lexicographic order on lists. -/
theorem chars_lt_iff : ∀ (a b : List Char), chars_lt a b = true ↔ a < b := by
  intro a
  induction a with
  | nil =>
    intro b
    cases b with
    | nil =>
      simp only [chars_lt, Bool.false_eq_true, false_iff]
      intro h
      cases h
    | cons d ds =>
      simp only [chars_lt, true_iff]
      exact List.Lex.nil
  | cons x xs ih =>
    intro b
    cases b with
    | nil =>
      simp only [chars_lt, Bool.false_eq_true, false_iff]
      intro h
      cases h
    | cons d ds =>
      simp only [chars_lt, Bool.or_eq_true, Bool.and_eq_true, decide_eq_true_eq, ih]
      constructor
      · rintro (h | ⟨rfl, h⟩)
        · exact List.Lex.rel h
        · exact List.Lex.cons h
      · intro h
        cases h with
        | cons h => exact Or.inr ⟨rfl, h⟩
        | rel h => exact Or.inl h

/-- Boolean string comparison agrees with the string order. -/
theorem str_lt_iff (a b : String) : str_lt a b = true ↔ a < b := by
  rw [String.lt_iff_toList_lt]
  exact chars_lt_iff a.data b.data

/-- The set's strict order is the lexicographic order on the 4-tuple key. -/
theorem sym_lt_iff (a b : diagnostic_symbol_t) : sym_lt a b ↔ sym_key a < sym_key b := by
  simp only [sym_lt, sym_lt_b, sym_key, Bool.or_eq_true, Bool.and_eq_true,
    decide_eq_true_eq, str_lt_iff, Prod.Lex.lt_iff]

/-- Transitivity of the set's strict order. -/
theorem sym_lt_trans {a b c : diagnostic_symbol_t} (h1 : sym_lt a b) (h2 : sym_lt b c) :
    sym_lt a c := by
  rw [sym_lt_iff] at h1 h2 ⊢
  exact lt_trans h1 h2

/-- Two symbols neither of which precedes the other are equal on the full
tuple. -/
theorem sym_eq_of_not_lt {a b : diagnostic_symbol_t} (h1 : ¬ sym_lt a b)
    (h2 : ¬ sym_lt b a) : a = b := by
  rw [sym_lt_iff] at h1 h2
  have hk := le_antisymm (not_lt.mp h2) (not_lt.mp h1)
  obtain ⟨s1, k1, c1, ⟨l1, o1⟩⟩ := a
  obtain ⟨s2, k2, c2, ⟨l2, o2⟩⟩ := b
  simp only [sym_key, toLex_inj, Prod.mk.injEq] at hk
  obtain ⟨e1, e2, e3, e4, e5⟩ := hk
  subst e1
  subst e2
  subst e3
  subst e4
  subst e5
  rfl

/-- Membership after set insertion: the inserted element or an old one. -/
theorem mem_set_insert (l : List diagnostic_symbol_t) (x a : diagnostic_symbol_t) :
    a ∈ set_insert l x ↔ a = x ∨ a ∈ l := by
  induction l with
  | nil => simp [set_insert]
  | cons y ys ih =>
    by_cases h1 : sym_lt x y
    · simp only [set_insert, h1, if_true, List.mem_cons]
    · by_cases h2 : sym_lt y x
      · simp only [set_insert, h1, h2, if_true, if_false, List.mem_cons, ih]
        tauto
      · have hxy : x = y := sym_eq_of_not_lt h1 h2
        subst hxy
        simp only [set_insert, h1, if_false, List.mem_cons]
        tauto

/-- Set insertion preserves strict sortedness of the iteration sequence. -/
theorem pairwise_set_insert (l : List diagnostic_symbol_t) (x : diagnostic_symbol_t)
    (h : l.Pairwise sym_lt) : (set_insert l x).Pairwise sym_lt := by
  induction l with
  | nil => simp [set_insert]
  | cons y ys ih =>
    rw [List.pairwise_cons] at h
    obtain ⟨hy, hys⟩ := h
    by_cases h1 : sym_lt x y
    · simp only [set_insert, h1, if_true]
      refine List.Pairwise.cons ?_ (List.Pairwise.cons hy hys)
      intro z hz
      rcases List.mem_cons.mp hz with rfl | hz
      · exact h1
      · exact sym_lt_trans h1 (hy z hz)
    · by_cases h2 : sym_lt y x
      · simp only [set_insert, h1, h2, if_true, if_false]
        refine List.Pairwise.cons ?_ (ih hys)
        intro z hz
        rcases (mem_set_insert ys x z).mp hz with rfl | hz
        · exact h2
        · exact hy z hz
      · simp only [set_insert, h1, h2, if_false]
        exact List.Pairwise.cons hy hys

/-- Membership in the symbol fold: an initial element or the reading of some
declaration-table entry. -/
theorem mem_fold_set_insert (ds : List declaration_sym) :
    ∀ (init : List diagnostic_symbol_t) (x : diagnostic_symbol_t),
      x ∈ ds.foldl (fun s d => set_insert s (read_symbol d)) init ↔
        x ∈ init ∨ ∃ d ∈ ds, read_symbol d = x := by
  induction ds with
  | nil => simp
  | cons d ds ih =>
    intro init x
    simp only [List.foldl_cons, ih, mem_set_insert, List.mem_cons]
    constructor
    · rintro ((rfl | hi) | ⟨d2, hd2, he⟩)
      · exact Or.inr ⟨d, Or.inl rfl, rfl⟩
      · exact Or.inl hi
      · exact Or.inr ⟨d2, Or.inr hd2, he⟩
    · rintro (hi | ⟨d2, (rfl | hd2), he⟩)
      · exact Or.inl (Or.inr hi)
      · exact Or.inl (Or.inl he.symm)
      · exact Or.inr ⟨d2, hd2, he⟩

/-- The symbol fold preserves strict sortedness. -/
theorem pairwise_fold_set_insert (ds : List declaration_sym) :
    ∀ (init : List diagnostic_symbol_t), init.Pairwise sym_lt →
      (ds.foldl (fun s d => set_insert s (read_symbol d)) init).Pairwise sym_lt := by
  induction ds with
  | nil => intro init h; simpa using h
  | cons d ds ih =>
    intro init h
    simpa only [List.foldl_cons] using ih _ (pairwise_set_insert _ _ h)

/-- C6: no two symbol entries of a report agree on the full
(name, kind, scope, position) tuple — the iteration sequence is strictly
sorted in the tuple order name, then kind, then scope, then position — and
the entries are exactly the readings of the declaration-table entries:
duplicates on all four fields collapse, entries differing in any field remain
distinct. -/
theorem c6_symbol_set_distinct_sorted (s : sema) (r : diagnostics_t)
    (h : get_diagnostics s = some r) :
    r.symbols.Pairwise sym_lt
    ∧ ∀ x, x ∈ r.symbols ↔ ∃ d ∈ s.declaration_of, read_symbol d = x := by
  unfold get_diagnostics at h
  obtain ⟨m, hm, rfl⟩ := Option.map_eq_some'.mp h
  refine ⟨pairwise_fold_set_insert _ _ List.Pairwise.nil, ?_⟩
  intro x
  simpa using mem_fold_set_insert s.declaration_of [] x

/-- Witness for C6 at a snapshot whose declaration table holds one entry
twice and a second entry once. -/
theorem c6_symbol_set_distinct_sorted_witness :
    c6_report.symbols.Pairwise sym_lt
    ∧ ∀ x, x ∈ c6_report.symbols ↔ ∃ d ∈ c6_sema.declaration_of, read_symbol d = x :=
  c6_symbol_set_distinct_sorted c6_sema c6_report (by decide)

/-- Replacing a single-character pattern rewrites exactly the occurrences of
that character, character-wise. -/
theorem replace_single (a : Char) (w : List Char) :
    ∀ s : List Char, replace_all_chars s [a] w =
      s.flatMap (fun c => if c = a then w else [c]) := by
  intro s
  induction s with
  | nil => simp [replace_all_chars]
  | cons c rest ih =>
    by_cases hc : c = a
    · subst hc
      simp [replace_all_chars, List.isPrefixOf, ih]
    · simp [replace_all_chars, List.isPrefixOf, hc, Ne.symm hc, ih]

/-- The seven chained replacements of `sanitize_for_json` amount to the
character-wise escaping `json_escape_char`. -/
theorem sanitize_data (s : String) :
    (sanitize_for_json s).data = s.data.flatMap json_escape_char := by
  simp only [sanitize_for_json, replace_all]
  rw [replace_single, replace_single, replace_single, replace_single, replace_single,
      replace_single, replace_single]
  simp only [List.flatMap_assoc]
  congr 1
  funext c
  by_cases h1 : c = '\\'
  · subst h1; decide
  · by_cases h2 : c = '"'
    · subst h2; decide
    · by_cases h3 : c = '\x08'
      · subst h3; decide
      · by_cases h4 : c = '\x0c'
        · subst h4; decide
        · by_cases h5 : c = '\n'
          · subst h5; decide
          · by_cases h6 : c = '\x0d'
            · subst h6; decide
            · by_cases h7 : c = '\t'
              · subst h7; decide
              · simp [json_escape_char, h1, h2, h3, h4, h5, h6, h7]

/-- Strings with equal character data are equal. -/
theorem string_eq_of_data {a b : String} (h : a.data = b.data) : a = b := by
  cases a
  cases b
  exact congrArg String.mk h

/-- String-level form of the escaping refinement. -/
theorem sanitize_for_json_spec (s : String) :
    sanitize_for_json s = { data := s.data.flatMap json_escape_char } :=
  string_eq_of_data (sanitize_data s)

/-- The documented example: a double quote inside a message is escaped. -/
theorem sanitize_quote_example : sanitize_for_json "a\"b" = "a\\\"b" := by
  rw [sanitize_for_json_spec]
  decide

/-- C7: the string escaping applies exactly the seven fixed replacements in
the fixed order backslash, double-quote, backspace, form-feed, newline,
carriage-return, tab — character-wise it equals `json_escape_char`, so no
other character is escaped — the message a"b renders as a\"b, and only error
messages pass through the escaping: in the serialized document a symbol name
containing a double quote is embedded raw, while the same text as an error
message is embedded escaped. -/
theorem c7_sanitize_exact_escapes :
    (∀ s : String, sanitize_for_json s = { data := s.data.flatMap json_escape_char })
    ∧ sanitize_for_json "a\"b" = "a\\\"b"
    ∧ contains_sub (print_diagnostics "" c7_report).data "\"symbol\": \"a\"b\"".data = true
    ∧ contains_sub (print_diagnostics "" c7_report).data "\"msg\": \"a\\\"b\"".data = true
    ∧ contains_sub (print_diagnostics "" c7_report).data "\"msg\": \"a\"b\"".data = false := by
  have h3 :
      contains_sub (print_diagnostics "" c7_report).data "\"symbol\": \"a\"b\"".data = true
      ∧ contains_sub (print_diagnostics "" c7_report).data "\"msg\": \"a\\\"b\"".data = true
      ∧ contains_sub (print_diagnostics "" c7_report).data "\"msg\": \"a\"b\"".data = false := by
    simp only [print_diagnostics, c7_report, List.foldl_cons, List.foldl_nil,
      sanitize_quote_example]
    exact ⟨by decide, by decide, by decide⟩
  exact ⟨sanitize_for_json_spec, sanitize_quote_example, h3.1, h3.2.1, h3.2.2⟩

/-- Unrolling the symbol loop of the serializer into a concatenation of
per-entry renderings. -/
theorem fold_symbols_eq (l : List diagnostic_symbol_t) (s : String) :
    l.foldl (fun o d =>
      o ++ "\x7b \"symbol\": \"" ++ d.symbol ++ "\", "
        ++ "\"scope\": \"" ++ d.scope ++ "\", "
        ++ "\"kind\": \"" ++ d.kind ++ "\", "
        ++ "\"lineno\": " ++ toString d.position.lineno ++ ", "
        ++ "\"colno\": " ++ toString d.position.colno ++ "\x7d,") s
    = s ++ concat_entries (l.map print_symbol_entry) := by
  induction l generalizing s with
  | nil => simp [concat_entries, String.append_empty]
  | cons a t ih =>
    rw [List.foldl_cons, ih, List.map_cons]
    simp only [concat_entries, print_symbol_entry, String.append_assoc]

/-- Unrolling the error loop of the serializer into a concatenation of
per-entry renderings. -/
theorem fold_errors_eq (l : List error_entry) (s : String) :
    l.foldl (fun o e =>
      o ++ "\x7b\"symbol\": \"" ++ e.symbol ++ "\", "
        ++ "\"lineno\": " ++ toString e.where_.lineno ++ ", "
        ++ "\"colno\": " ++ toString e.where_.colno ++ ", "
        ++ "\"msg\": \"" ++ sanitize_for_json e.msg ++ "\"\x7d,") s
    = s ++ concat_entries (l.map print_error_entry) := by
  induction l generalizing s with
  | nil => simp [concat_entries, String.append_empty]
  | cons a t ih =>
    rw [List.foldl_cons, ih, List.map_cons]
    simp only [concat_entries, print_error_entry, String.append_assoc]

/-- Unrolling the scope loop of the serializer into a concatenation of
per-entry renderings. -/
theorem fold_scopes_eq (l : diagnostic_scope_map) (s : String) :
    l.foldl (fun o s =>
      o ++ "\"" ++ s.1 ++ "\":"
        ++ "\x7b\"start\": \x7b \"lineno\": " ++ toString s.2.start.lineno ++ ", "
        ++ "\"colno\": " ++ toString s.2.start.colno ++ "\x7d,"
        ++ "\"end\": \x7b \"lineno\": " ++ toString s.2.end_.lineno ++ ", "
        ++ "\"colno\": " ++ toString s.2.end_.colno ++ "\x7d\x7d,") s
    = s ++ concat_entries (l.map print_scope_entry) := by
  induction l generalizing s with
  | nil => simp [concat_entries, String.append_empty]
  | cons a t ih =>
    rw [List.foldl_cons, ih, List.map_cons]
    simp only [concat_entries, print_scope_entry, String.append_assoc]

/-- C9 (amended): the serialized document is the three sections in the order
symbols, errors, scopes, named "symbols", "errors", "scopes"; the scopes
section is a name-keyed map whose values carry start and end positions under
the field names lineno and colno, each symbols entry carries the fields
symbol, scope, kind, lineno, colno, and each errors entry carries the fields
symbol, lineno, colno, msg (the position fields are spelled lineno/colno, not
line/col as the claim stated). -/
theorem c9_serialized_document_structure (r : diagnostics_t) :
    print_diagnostics "" r =
      "\x7b\"symbols\": [" ++ concat_entries (r.symbols.map print_symbol_entry)
      ++ "], \"errors\": [" ++ concat_entries (r.errors.map print_error_entry)
      ++ "], \"scopes\": \x7b" ++ concat_entries (r.scope_map.map print_scope_entry)
      ++ "\x7d\x7d" := by
  simp only [print_diagnostics]
  rw [fold_symbols_eq, fold_errors_eq, fold_scopes_eq]
  simp only [String.empty_append, String.append_assoc]

/-- Reflexivity of the position order. -/
theorem pos_le_refl (a : source_position) : pos_le a a = true := by
  simp [pos_le]

/-- An element of an updated map is the written pair or an old element. -/
theorem mem_map_set (m : diagnostic_scope_map) (k : String) (v : diagnostic_scope_range_t) :
    ∀ a, a ∈ map_set m k v → a = (k, v) ∨ a ∈ m := by
  induction m with
  | nil => intro a ha; simpa [map_set] using ha
  | cons p rest ih =>
    intro a ha
    by_cases hk : p.1 = k
    · simp only [map_set, hk, if_true, List.mem_cons] at ha
      rcases ha with rfl | ha
      · exact Or.inl rfl
      · exact Or.inr (List.mem_cons.mpr (Or.inr ha))
    · simp only [map_set, hk, if_false, List.mem_cons] at ha
      rcases ha with rfl | ha
      · exact Or.inr (List.mem_cons.mpr (Or.inl rfl))
      · rcases ih a ha with h | h
        · exact Or.inl h
        · exact Or.inr (List.mem_cons.mpr (Or.inr h))

/-- A successful lookup is a member of the map. -/
theorem map_find_mem (m : diagnostic_scope_map) (k : String) (v : diagnostic_scope_range_t)
    (h : map_find m k = some v) : (k, v) ∈ m := by
  induction m with
  | nil => simp [map_find] at h
  | cons p rest ih =>
    by_cases hk : p.1 = k
    · simp only [map_find, hk, if_true, Option.some.injEq] at h
      subst h
      subst hk
      exact List.mem_cons.mpr (Or.inl rfl)
    · simp only [map_find, hk, if_false] at h
      exact List.mem_cons.mpr (Or.inr (ih h))

/-- Keys after a map write: unchanged when the key was present, the key
appended otherwise. -/
theorem map_keys_set (m : diagnostic_scope_map) (k : String) (v : diagnostic_scope_range_t) :
    map_keys (map_set m k v) =
      if k ∈ map_keys m then map_keys m else map_keys m ++ [k] := by
  simp only [map_keys]
  induction m with
  | nil => simp [map_set]
  | cons p rest ih =>
    by_cases hk : p.1 = k
    · subst hk
      simp [map_set]
    · have hne : ¬ k = p.1 := fun h => hk h.symm
      simp only [map_set, hk, if_false, List.map_cons, ih, List.mem_cons, hne, false_or]
      by_cases hmem : k ∈ List.map Prod.fst rest
      · simp [hmem]
      · simp [hmem]

/-- Membership in the keys of an updated map. -/
theorem mem_map_keys_set (m : diagnostic_scope_map) (k : String)
    (v : diagnostic_scope_range_t) (n : String) :
    n ∈ map_keys (map_set m k v) ↔ n ∈ map_keys m ∨ n = k := by
  rw [map_keys_set]
  by_cases hmem : k ∈ map_keys m
  · simp only [hmem, if_true]
    constructor
    · exact Or.inl
    · rintro (h | rfl)
      · exact h
      · exact hmem
  · simp [hmem]

/-- A map write preserves key distinctness. -/
theorem nodup_map_keys_set (m : diagnostic_scope_map) (k : String)
    (v : diagnostic_scope_range_t) (h : (map_keys m).Nodup) :
    (map_keys (map_set m k v)).Nodup := by
  rw [map_keys_set]
  by_cases hmem : k ∈ map_keys m
  · simpa [hmem] using h
  · simp only [hmem, if_false]
    exact List.Nodup.append h (List.nodup_singleton k)
      (by simpa [List.disjoint_singleton] using hmem)

/-- The scope-map loop keeps the map's keys distinct. -/
theorem aux_nodup (evts : List symbol) :
    ∀ (stack : List String) (m : diagnostic_scope_map)
      (res : List String × diagnostic_scope_map),
      (map_keys m).Nodup →
      evts.foldlM scope_step (stack, m) = some res →
      (map_keys res.2).Nodup := by
  induction evts with
  | nil =>
    intro stack m res h hres
    simp only [List.foldlM] at hres
    cases hres
    exact h
  | cons e rest ih =>
    intro stack m res h hres
    obtain ⟨sa⟩ := e
    cases sa with
    | declaration d =>
      by_cases hd : (d.declaration.is_function || d.declaration.is_namespace) = true
      · cases hid : d.identifier with
        | none =>
          simp only [List.foldlM, scope_step, hd, hid, if_true, Option.some_bind] at hres
          exact ih _ _ _ h hres
        | some name =>
          simp only [List.foldlM, scope_step, hd, hid, if_true, Option.some_bind] at hres
          exact ih _ _ _ h hres
      · simp only [List.foldlM, scope_step, hd, if_false, ite_false,
          Option.some_bind] at hres
        exact ih _ _ _ h hres
    | compound c =>
      by_cases hk : c.kind_ = .is_scope
      · cases stack with
        | nil => simp [List.foldlM, scope_step, hk] at hres
        | cons name rest2 =>
          cases hs : c.start
          · simp only [List.foldlM, scope_step, hk, hs, if_true, ite_true, ite_false,
              Bool.false_eq_true, Option.some_bind] at hres
            exact ih _ _ _ (nodup_map_keys_set _ _ _ h) hres
          · simp only [List.foldlM, scope_step, hk, hs, if_true, ite_true,
              Option.some_bind] at hres
            exact ih _ _ _ (nodup_map_keys_set _ _ _ h) hres
      · simp only [List.foldlM, scope_step, hk, if_false, ite_false,
          Option.some_bind] at hres
        exact ih _ _ _ h hres
    | other_sym =>
      simp only [List.foldlM, scope_step, Option.some_bind] at hres
      exact ih _ _ _ h hres

/-- Every key of the final scope map was a key already, a stacked name, or a
name pushed by the remaining events. -/
theorem aux_keys_sub (evts : List symbol) :
    ∀ (stack : List String) (m : diagnostic_scope_map)
      (res : List String × diagnostic_scope_map),
      evts.foldlM scope_step (stack, m) = some res →
      ∀ n ∈ map_keys res.2, n ∈ map_keys m ∨ n ∈ stack ∨ n ∈ pushed_names evts := by
  induction evts with
  | nil =>
    intro stack m res hres n hn
    simp only [List.foldlM] at hres
    cases hres
    exact Or.inl hn
  | cons e rest ih =>
    intro stack m res hres n hn
    obtain ⟨sa⟩ := e
    cases sa with
    | declaration d =>
      by_cases hd : (d.declaration.is_function || d.declaration.is_namespace) = true
      · cases hid : d.identifier with
        | none =>
          simp only [List.foldlM, scope_step, hd, hid, if_true, Option.some_bind] at hres
          simp only [pushed_names, hd, hid, if_true]
          exact ih _ _ _ hres n hn
        | some name =>
          simp only [List.foldlM, scope_step, hd, hid, if_true, Option.some_bind] at hres
          simp only [pushed_names, hd, hid, if_true]
          rcases ih _ _ _ hres n hn with h | h | h
          · exact Or.inl h
          · rcases List.mem_cons.mp h with rfl | h
            · exact Or.inr (Or.inr (List.mem_cons.mpr (Or.inl rfl)))
            · exact Or.inr (Or.inl h)
          · exact Or.inr (Or.inr (List.mem_cons.mpr (Or.inr h)))
      · simp only [List.foldlM, scope_step, hd, if_false, ite_false,
          Option.some_bind] at hres
        simp only [pushed_names, hd, ite_false]
        exact ih _ _ _ hres n hn
    | compound c =>
      by_cases hk : c.kind_ = .is_scope
      · cases stack with
        | nil => simp [List.foldlM, scope_step, hk] at hres
        | cons name rest2 =>
          simp only [pushed_names, hk]
          cases hs : c.start
          · simp only [List.foldlM, scope_step, hk, hs, if_true, ite_true, ite_false,
              Bool.false_eq_true, Option.some_bind] at hres
            rcases ih _ _ _ hres n hn with h | h | h
            · rcases (mem_map_keys_set m name _ n).mp h with h2 | rfl
              · exact Or.inl h2
              · exact Or.inr (Or.inl (List.mem_cons.mpr (Or.inl rfl)))
            · exact Or.inr (Or.inl (List.mem_cons.mpr (Or.inr h)))
            · exact Or.inr (Or.inr h)
          · simp only [List.foldlM, scope_step, hk, hs, if_true, ite_true,
              Option.some_bind] at hres
            rcases ih _ _ _ hres n hn with h | h | h
            · rcases (mem_map_keys_set m name _ n).mp h with h2 | rfl
              · exact Or.inl h2
              · exact Or.inr (Or.inl (List.mem_cons.mpr (Or.inl rfl)))
            · exact Or.inr (Or.inl h)
            · exact Or.inr (Or.inr h)
      · simp only [List.foldlM, scope_step, hk, if_false, ite_false,
          Option.some_bind] at hres
        simp only [pushed_names, hk, ite_false]
        exact ih _ _ _ hres n hn
    | other_sym =>
      simp only [List.foldlM, scope_step, Option.some_bind] at hres
      simp only [pushed_names]
      exact ih _ _ _ hres n hn

/-- Every key already present, stacked name, and name to be pushed ends up a
key of the final map or a name still on the final stack. -/
theorem aux_keys_super (evts : List symbol) :
    ∀ (stack : List String) (m : diagnostic_scope_map)
      (res : List String × diagnostic_scope_map),
      evts.foldlM scope_step (stack, m) = some res →
      ∀ n, (n ∈ map_keys m ∨ n ∈ stack ∨ n ∈ pushed_names evts) →
      n ∈ map_keys res.2 ∨ n ∈ res.1 := by
  induction evts with
  | nil =>
    intro stack m res hres n hn
    simp only [List.foldlM] at hres
    cases hres
    rcases hn with h | h | h
    · exact Or.inl h
    · exact Or.inr h
    · simp [pushed_names] at h
  | cons e rest ih =>
    intro stack m res hres n hn
    obtain ⟨sa⟩ := e
    cases sa with
    | declaration d =>
      by_cases hd : (d.declaration.is_function || d.declaration.is_namespace) = true
      · cases hid : d.identifier with
        | none =>
          simp only [List.foldlM, scope_step, hd, hid, if_true, Option.some_bind] at hres
          simp only [pushed_names, hd, hid, if_true] at hn
          exact ih _ _ _ hres n hn
        | some name =>
          simp only [List.foldlM, scope_step, hd, hid, if_true, Option.some_bind] at hres
          simp only [pushed_names, hd, hid, if_true] at hn
          rcases hn with h | h | h
          · exact ih _ _ _ hres n (Or.inl h)
          · exact ih _ _ _ hres n (Or.inr (Or.inl (List.mem_cons.mpr (Or.inr h))))
          · rcases List.mem_cons.mp h with rfl | h
            · exact ih _ _ _ hres n (Or.inr (Or.inl (List.mem_cons.mpr (Or.inl rfl))))
            · exact ih _ _ _ hres n (Or.inr (Or.inr h))
      · simp only [List.foldlM, scope_step, hd, if_false, ite_false,
          Option.some_bind] at hres
        simp only [pushed_names, hd, ite_false] at hn
        exact ih _ _ _ hres n hn
    | compound c =>
      by_cases hk : c.kind_ = .is_scope
      · cases stack with
        | nil => simp [List.foldlM, scope_step, hk] at hres
        | cons name rest2 =>
          simp only [pushed_names, hk] at hn
          cases hs : c.start
          · simp only [List.foldlM, scope_step, hk, hs, if_true, ite_true, ite_false,
              Bool.false_eq_true, Option.some_bind] at hres
            rcases hn with h | h | h
            · exact ih _ _ _ hres n (Or.inl ((mem_map_keys_set m name _ n).mpr (Or.inl h)))
            · rcases List.mem_cons.mp h with rfl | h
              · exact ih _ _ _ hres n
                  (Or.inl ((mem_map_keys_set m _ _ n).mpr (Or.inr rfl)))
              · exact ih _ _ _ hres n (Or.inr (Or.inl h))
            · exact ih _ _ _ hres n (Or.inr (Or.inr h))
          · simp only [List.foldlM, scope_step, hk, hs, if_true, ite_true,
              Option.some_bind] at hres
            rcases hn with h | h | h
            · exact ih _ _ _ hres n (Or.inl ((mem_map_keys_set m name _ n).mpr (Or.inl h)))
            · exact ih _ _ _ hres n (Or.inr (Or.inl h))
            · exact ih _ _ _ hres n (Or.inr (Or.inr h))
      · simp only [List.foldlM, scope_step, hk, if_false, ite_false,
          Option.some_bind] at hres
        simp only [pushed_names, hk, ite_false] at hn
        exact ih _ _ _ hres n hn
    | other_sym =>
      simp only [List.foldlM, scope_step, Option.some_bind] at hres
      simp only [pushed_names] at hn
      exact ih _ _ _ hres n hn

/-- When the scope-marker positions of the stream are non-decreasing and all
at least the default position, and every map entry so far has its start at or
before its end and at or before every remaining marker, the final map's
entries all satisfy start at or before end. -/
theorem aux_range_invariant (evts : List symbol) :
    ∀ (stack : List String) (m : diagnostic_scope_map)
      (res : List String × diagnostic_scope_map),
      List.Pairwise (fun a b => pos_le a b = true) (marker_positions evts) →
      (∀ q ∈ marker_positions evts, pos_le default_source_position q = true) →
      (∀ en ∈ m, pos_le en.2.start en.2.end_ = true) →
      (∀ en ∈ m, ∀ q ∈ marker_positions evts, pos_le en.2.start q = true) →
      evts.foldlM scope_step (stack, m) = some res →
      ∀ en ∈ res.2, pos_le en.2.start en.2.end_ = true := by
  induction evts with
  | nil =>
    intro stack m res hp hd h3 h4 hres
    simp only [List.foldlM] at hres
    cases hres
    exact h3
  | cons e rest ih =>
    intro stack m res hp hd h3 h4 hres
    obtain ⟨sa⟩ := e
    cases sa with
    | declaration d =>
      have hm : marker_positions ({ sym := symbol_active.declaration d } :: rest) =
          marker_positions rest := by
        simp [marker_positions]
      rw [hm] at hp hd h4
      by_cases hd2 : (d.declaration.is_function || d.declaration.is_namespace) = true
      · cases hid : d.identifier with
        | none =>
          simp only [List.foldlM, scope_step, hd2, hid, if_true, Option.some_bind] at hres
          exact ih _ _ _ hp hd h3 h4 hres
        | some name =>
          simp only [List.foldlM, scope_step, hd2, hid, if_true, Option.some_bind] at hres
          exact ih _ _ _ hp hd h3 h4 hres
      · simp only [List.foldlM, scope_step, hd2, if_false, ite_false,
          Option.some_bind] at hres
        exact ih _ _ _ hp hd h3 h4 hres
    | compound c =>
      by_cases hk : c.kind_ = .is_scope
      · cases stack with
        | nil => simp [List.foldlM, scope_step, hk] at hres
        | cons name rest2 =>
          cases hs : c.start
          · have hm : marker_positions ({ sym := symbol_active.compound c } :: rest) =
                c.compound.close_brace :: marker_positions rest := by
              simp [marker_positions, hk, hs]
            rw [hm] at hp hd h4
            obtain ⟨hq_all, hp2⟩ := List.pairwise_cons.mp hp
            have hd2 : ∀ q ∈ marker_positions rest,
                pos_le default_source_position q = true :=
              fun q hq => hd q (List.mem_cons.mpr (Or.inr hq))
            have hdq : pos_le default_source_position c.compound.close_brace = true :=
              hd _ (List.mem_cons.mpr (Or.inl rfl))
            simp only [List.foldlM, scope_step, hk, hs, if_true, ite_true, ite_false,
              Bool.false_eq_true, Option.some_bind] at hres
            have hstart : pos_le
                ((map_find m name).getD
                  { start := default_source_position,
                    end_ := default_source_position }).start
                c.compound.close_brace = true := by
              cases hf : map_find m name with
              | none => simpa [hf] using hdq
              | some v =>
                simpa [hf] using
                  h4 (name, v) (map_find_mem m name v hf) c.compound.close_brace
                    (List.mem_cons.mpr (Or.inl rfl))
            have hstart_rest : ∀ q ∈ marker_positions rest, pos_le
                ((map_find m name).getD
                  { start := default_source_position,
                    end_ := default_source_position }).start q = true := by
              intro q hq
              cases hf : map_find m name with
              | none => simpa [hf] using hd2 q hq
              | some v =>
                simpa [hf] using
                  h4 (name, v) (map_find_mem m name v hf) q (List.mem_cons.mpr (Or.inr hq))
            refine ih _ _ _ hp2 hd2 ?_ ?_ hres
            · intro en hen
              rcases mem_map_set m name _ en hen with rfl | hen2
              · simpa using hstart
              · exact h3 en hen2
            · intro en hen q hq
              rcases mem_map_set m name _ en hen with rfl | hen2
              · simpa using hstart_rest q hq
              · exact h4 en hen2 q (List.mem_cons.mpr (Or.inr hq))
          · have hm : marker_positions ({ sym := symbol_active.compound c } :: rest) =
                c.compound.open_brace :: marker_positions rest := by
              simp [marker_positions, hk, hs]
            rw [hm] at hp hd h4
            obtain ⟨hq_all, hp2⟩ := List.pairwise_cons.mp hp
            have hd2 : ∀ q ∈ marker_positions rest,
                pos_le default_source_position q = true :=
              fun q hq => hd q (List.mem_cons.mpr (Or.inr hq))
            simp only [List.foldlM, scope_step, hk, hs, if_true, ite_true,
              Option.some_bind] at hres
            refine ih _ _ _ hp2 hd2 ?_ ?_ hres
            · intro en hen
              rcases mem_map_set m name _ en hen with rfl | hen2
              · simpa using pos_le_refl c.compound.open_brace
              · exact h3 en hen2
            · intro en hen q hq
              rcases mem_map_set m name _ en hen with rfl | hen2
              · simpa using hq_all q hq
              · exact h4 en hen2 q (List.mem_cons.mpr (Or.inr hq))
      · have hm : marker_positions ({ sym := symbol_active.compound c } :: rest) =
            marker_positions rest := by
          simp [marker_positions, hk]
        rw [hm] at hp hd h4
        simp only [List.foldlM, scope_step, hk, if_false, ite_false,
          Option.some_bind] at hres
        exact ih _ _ _ hp hd h3 h4 hres
    | other_sym =>
      have hm : marker_positions ({ sym := symbol_active.other_sym } :: rest) =
          marker_positions rest := by
        simp [marker_positions]
      rw [hm] at hp hd h4
      simp only [List.foldlM, scope_step, Option.some_bind] at hres
      exact ih _ _ _ hp hd h3 h4 hres

/-- C2 (amended): for every balanced event stream (empty final stack, no
underflow), the scope map has exactly one entry per distinct pushed name —
its keys are distinct and are exactly the pushed names, a later same-named
push overwriting the earlier entry rather than adding one — and, provided the
scope-marker positions are non-decreasing in stream order and all at least
the 1-based origin (1,1), every entry satisfies end at or after start in the
lexicographic position order.  (The original claim asserted end at or after
start for every balanced stream, with no condition on the marker positions;
the counterexample shows that fails.) -/
theorem c2_balanced_scope_map (evts : List symbol) (m : diagnostic_scope_map)
    (h : make_scope_map_aux evts = some ([], m)) :
    ((map_keys m).Nodup ∧ ∀ n, n ∈ map_keys m ↔ n ∈ pushed_names evts)
    ∧ ((List.Chain' (fun a b => pos_le a b = true) (marker_positions evts)
        ∧ ∀ q ∈ marker_positions evts, pos_le default_source_position q = true) →
       ∀ en ∈ m, pos_le en.2.start en.2.end_ = true) := by
  rw [make_scope_map_aux] at h
  refine ⟨⟨aux_nodup evts [] [] ([], m) (by simp [map_keys]) h, ?_⟩, ?_⟩
  · intro n
    constructor
    · intro hn
      rcases aux_keys_sub evts [] [] ([], m) h n hn with h2 | h2 | h2
      · simp [map_keys] at h2
      · simp at h2
      · exact h2
    · intro hn
      rcases aux_keys_super evts [] [] ([], m) h n (Or.inr (Or.inr hn)) with h2 | h2
      · exact h2
      · simp at h2
  · rintro ⟨hc, hd⟩
    have hp := List.chain'_iff_pairwise.mp hc
    exact aux_range_invariant evts [] [] ([], m) hp hd (by simp) (by simp) h

/-- Witness for C2 at the nested-scope example stream, whose markers are
non-decreasing. -/
theorem c2_balanced_scope_map_witness :
    ((map_keys c1_scope_result).Nodup
      ∧ ∀ n, n ∈ map_keys c1_scope_result ↔ n ∈ pushed_names c1_events)
    ∧ ((List.Chain' (fun a b => pos_le a b = true) (marker_positions c1_events)
        ∧ ∀ q ∈ marker_positions c1_events, pos_le default_source_position q = true) →
       ∀ en ∈ c1_scope_result, pos_le en.2.start en.2.end_ = true) :=
  c2_balanced_scope_map c1_events c1_scope_result (by decide)
